import Mathlib

/-!
Shallow embedding of the auto-muter repository's core algorithms.

Sources embedded here:
- `src/browser-extension/backend/main.py`: per-user gallery loading
  (`load_embeddings_for_user`), the chunk decision loop (`is_target_speaker`),
  the websocket session loop (`websocket_endpoint`), and identifier
  validation (`get_db_path`, `wipe_db`).
- `src/data-processing/extract_speaker_samples.py`: the iterative mining
  pipeline (`extract_samples`) with its threshold schedule.

Machine floats are modelled as rationals; embedding vectors as lists of
rationals.  External capabilities (torch cosine similarity, pyannote
inference, pydub decoding, sqlite, the filesystem) are abstracted as
function parameters or as already-decoded values, exactly at the call
boundary where the repository hands data to them.
-/

namespace AutoMuter

/-- A speaker embedding: a fixed-length real vector, modelled as a list of
rationals (the source stores float32 vectors). -/
abbrev Emb := List ℚ

/-- Elementwise vector addition (`numpy` elementwise `+` on stacked equal
length vectors). -/
def vecAdd (a b : Emb) : Emb := List.zipWith (· + ·) a b

/-- Scalar multiplication of a vector. -/
def vecScale (c : ℚ) (v : Emb) : Emb := v.map (fun x => c * x)

/-- Arithmetic mean of a list of vectors, as computed by
`np.mean(np.stack(all_embeddings), axis=0)` in
`extract_speaker_samples.py` (`get_embedding_from_folder`): elementwise sum
divided by the number of vectors. -/
def vecMean : List Emb → Emb
  | [] => []
  | e :: rest => vecScale (1 / ((rest.length + 1 : ℕ) : ℚ)) (rest.foldl vecAdd e)

/-- The combination step of `load_embeddings_for_user` (main.py lines
117-120): `torch.cat([existing, embedding_tensor], dim=0)` followed by
`.mean(dim=0, keepdim=True)` on the two stacked rows, i.e. the elementwise
average of the two vectors. -/
def pairwiseMean (a b : Emb) : Emb := List.zipWith (fun x y => (x + y) / 2) a b

/-- One row-processing step of `load_embeddings_for_user` (main.py lines
110-122): the Python dict update.  If the speaker already has an entry, its
stored vector is replaced by the pairwise mean of the stored vector and the
new row's embedding (in place, keeping dict insertion order); otherwise the
speaker is appended at the end.  The gallery dict is modelled as an
insertion-ordered association list. -/
def insertRow : List (String × Emb) → String → Emb → List (String × Emb)
  | [], n, e => [(n, e)]
  | (k, v) :: rest, n, e =>
      if k = n then (k, pairwiseMean v e) :: rest
      else (k, v) :: insertRow rest n e

/-- The gallery reconstruction of `load_embeddings_for_user` (main.py lines
100-132): fold the row-processing step over the `speakers JOIN sources`
rows, starting from an empty dict.  Rows arrive already decoded from their
float32 blobs (`np.frombuffer` is external byte decoding). -/
def load_embeddings_for_user (rows : List (String × Emb)) : List (String × Emb) :=
  rows.foldl (fun acc r => insertRow acc r.1 r.2) []

/-- Lookup of a speaker's effective embedding in the loaded gallery
(Python dict access `user_specific_embeddings[speaker_name]`). -/
def galleryFind (name : String) : List (String × Emb) → Option Emb
  | [] => none
  | (k, v) :: rest => if k = name then some v else galleryFind name rest

/-- Merge a current dict entry with a sequence of further source embeddings
for the same speaker, the way `load_embeddings_for_user` does: iterated
pairwise averaging, left to right. -/
def mergeSources (cur : Option Emb) : List Emb → Option Emb
  | [] => cur
  | e :: rest =>
      match cur with
      | some v => some (List.foldl pairwiseMean (pairwiseMean v e) rest)
      | none => some (List.foldl pairwiseMean e rest)

/-- Outcome of decoding and embedding one incoming websocket chunk.  The
decode (`pydub`) and inference (`pyannote`) calls are external capabilities;
`ok live` stands for a chunk for which the whole try-block of
`is_target_speaker` (main.py lines 249-259) produced the live embedding
`live`, and `fail` stands for any exception raised inside that try-block. -/
inductive ChunkEval where
  | ok (live : Emb)
  | fail
deriving DecidableEq

/-- The hardcoded decision threshold of `is_target_speaker` (main.py line
266): `THRESHOLD = 0.4`. -/
def THRESHOLD : ℚ := 2 / 5

/-- The gallery scan of `is_target_speaker` (main.py lines 261-272).
`score` abstracts the external `torch.nn.functional.cosine_similarity`
capability.  The running maximum `maxSim` starts at `0.0` (line 247) and is
updated before the threshold test; on the first speaker whose score strictly
exceeds the threshold the loop returns `true` with that speaker's own score
(and its name, which the source logs at line 268); otherwise it returns
`false` with the running maximum.  The gallery list is the Python dict in
insertion order. -/
def decideLoop (score : Emb → Emb → ℚ) (live : Emb) (threshold : ℚ) :
    List (String × Emb) → ℚ → Option String × Bool × ℚ
  | [], maxSim => (none, false, maxSim)
  | (name, emb) :: rest, maxSim =>
      if threshold < score live emb then (some name, true, score live emb)
      else decideLoop score live threshold rest (max maxSim (score live emb))

/-- The chunk decision of `is_target_speaker` (main.py lines 238-279).
`gallery = none` models `userId not in speaker_embeddings`, `some []` an
empty per-user dict, and `modelLoaded = false` models `inference_model is
None`; any of these short-circuits to `(False, 0.0)` (line 240).  A failing
chunk hits the except-branch and also yields `(False, 0.0)` (line 276). -/
def is_target_speaker (gallery : Option (List (String × Emb)))
    (modelLoaded : Bool) (score : Emb → Emb → ℚ) (chunk : ChunkEval) :
    Bool × ℚ :=
  match gallery with
  | none => (false, 0)
  | some g =>
      if g.isEmpty || !modelLoaded then (false, 0)
      else
        match chunk with
        | ChunkEval.fail => (false, 0)
        | ChunkEval.ok live =>
            let r := decideLoop score live THRESHOLD g 0
            (r.2.1, r.2.2)

/-- A decision message emitted over the websocket (main.py lines 399-403). -/
structure WsResponse where
  action : String
  similarity : ℚ
  isTargetSpeaker : Bool
deriving DecidableEq

/-- Python's `round(x, 4)` on the similarity (main.py line 401), modelled as
rounding to the nearest multiple of `1/10000`.  Python's float tie-breaking
(half to even) is not distinguished here; no claim depends on a tie. -/
def round4 (q : ℚ) : ℚ := (round (q * 10000) : ℤ) / 10000

/-- Building the response message from the decision (main.py lines
399-403). -/
def respond (r : Bool × ℚ) : WsResponse :=
  { action := if r.1 then "MUTE" else "UNMUTE"
    similarity := round4 r.2
    isTargetSpeaker := r.1 }

/-- The receive-decide-send loop of `websocket_endpoint` (main.py lines
396-404), run over the sequence of chunks that arrive before the channel
closes: each chunk is evaluated by `is_target_speaker` and answered with one
response message; chunk processing itself never breaks the loop (only
`receive_bytes`/`send_json` raising, i.e. the end of the chunk list,
does). -/
def sessionRun (gallery : Option (List (String × Emb))) (modelLoaded : Bool)
    (score : Emb → Emb → ℚ) : List ChunkEval → List WsResponse
  | [] => []
  | c :: rest =>
      respond (is_target_speaker gallery modelLoaded score c) ::
        sessionRun gallery modelLoaded score rest

/-- Constant from `extract_speaker_samples.py` line 34:
`INITIAL_CONFIDENCE_THRESHOLD = 0.3`. -/
def INITIAL_CONFIDENCE_THRESHOLD : ℚ := 3 / 10

/-- Constant from `extract_speaker_samples.py` line 35:
`CONFIDENCE_THRESHOLD_INCREMENT = 0.2`. -/
def CONFIDENCE_THRESHOLD_INCREMENT : ℚ := 1 / 5

/-- One round's corpus scan (`process_single_raw_audio_file`, lines
157-188, aggregated over all files at lines 249-267): the candidate
segments of the corpus whose score against the master embedding strictly
exceeds the round's threshold are accepted.  Segments are modelled by their
embeddings (VAD, decoding and the embedding model are external); `score`
abstracts `torch.nn.functional.cosine_similarity` (line 182). -/
def roundAccepted (score : Emb → Emb → ℚ) (corpus : List Emb) (master : Emb)
    (thr : ℚ) : List Emb :=
  corpus.filter (fun seg => decide (thr < score master seg))

/-- The round loop of `extract_samples` (lines 221-278): each round accepts
clips against the current master embedding and threshold; if none are
accepted the loop breaks (line 271-273); otherwise the next master is the
mean of this round's accepted clips (lines 110-131, 233-234) and the
threshold becomes `min(1.0, threshold + CONFIDENCE_THRESHOLD_INCREMENT)`
(line 278).  The returned trace lists, per executed round, the round's
threshold and the number of accepted clips. -/
def miningTrace (score : Emb → Emb → ℚ) (corpus : List Emb) :
    ℕ → Emb → ℚ → List (ℚ × ℕ)
  | 0, _, _ => []
  | n + 1, master, thr =>
      (thr, (roundAccepted score corpus master thr).length) ::
        (if (roundAccepted score corpus master thr).length = 0 then []
         else miningTrace score corpus n (vecMean (roundAccepted score corpus master thr))
           (min 1 (thr + CONFIDENCE_THRESHOLD_INCREMENT)))

/-- Entry point of the mining pipeline (`extract_samples`, lines 199-280):
round 1 starts from the seed sample's embedding and
`INITIAL_CONFIDENCE_THRESHOLD`. -/
def extract_samples (score : Emb → Emb → ℚ) (corpus : List Emb)
    (seedEmb : Emb) (numRounds : ℕ) : List (ℚ × ℕ) :=
  miningTrace score corpus numRounds seedEmb INITIAL_CONFIDENCE_THRESHOLD

/-- The userId validation of `get_db_path` (main.py lines 42-47): the id
must be nonempty and consist only of alphanumerics, `-` and `_`.  Python's
`str.isalnum` is modelled by `Char.isAlphanum` (they agree on ASCII; the
claims only use ASCII inputs). -/
def validUserId (userId : String) : Bool :=
  !userId.data.isEmpty &&
    userId.data.all (fun c => c.isAlphanum || c == '-' || c == '_')

/-- The function `get_db_path` (main.py lines 42-47): on an invalid id it
raises `ValueError("Invalid userId format.")`, modelled as `Except.error`;
otherwise it returns the per-user database path. -/
def get_db_path (userId : String) : Except String String :=
  if validUserId userId then
    Except.ok ("/app/browser-extension/backend/speakers_" ++ userId ++ ".db")
  else Except.error "Invalid userId format."

/-- A structured status payload returned by the administrative endpoints. -/
structure ApiResponse where
  status : String
  message : String
deriving DecidableEq

/-- The `/wipe-db` endpoint (main.py lines 281-304).  A missing or falsy
(empty) `userId` yields the structured `Missing userId.` payload (lines
283-285).  `get_db_path` is then called OUTSIDE the try-block (line 287),
so its `ValueError` propagates out of the endpoint unhandled
(`Except.error`).  With a valid id the body runs inside try/except and
returns a structured success payload (line 301); exceptions of the external
file operations inside the try-block (not modelled) would return a
structured error payload (line 304). -/
def wipe_db (userId : Option String) : Except String ApiResponse :=
  match userId with
  | none => Except.ok ⟨"error", "Missing userId."⟩
  | some uid =>
      if uid.data.isEmpty then Except.ok ⟨"error", "Missing userId."⟩
      else
        match get_db_path uid with
        | Except.error e => Except.error e
        | Except.ok _path =>
            Except.ok ⟨"success",
              "Database for user " ++ uid ++ " wiped and reinitialized."⟩

/-- The signal actually handed to the embedding model for a live chunk
(main.py lines 250-257): after the external decode and
resample-to-16kHz-mono steps, the samples are exported and passed to
`inference_model` unchanged — the repository contains no length adjustment
(no repeat, no truncate) between decoding and embedding. -/
def preparedSignal (decodedSamples : List ℚ) : List ℚ := decodedSamples

/-- Modelled from the spec: the deterministic minimum-duration extension the
spec requires for short inputs (spec §4.2, "loop/repeat the signal to reach
the minimum ... repeat + truncate to exact minimum length").  This logic is
absent from the source; the definition exists only to be compared with the
source's `preparedSignal`. -/
def repeatTruncate (minLen : ℕ) (s : List ℚ) : List ℚ :=
  (List.range minLen).map (fun i => s.getD (i % s.length) 0)

/-- A concrete external-scorer instance used by concrete evaluations: every
comparison yields cosine score `-1/2` (cosine similarity ranges over
`[-1, 1]`, so a uniformly negative scorer is realizable). -/
def negHalfScore : Emb → Emb → ℚ := fun _ _ => -(1 / 2)

/-- A concrete external-scorer instance used by concrete evaluations: every
comparison yields cosine score `9/10`. -/
def highScore : Emb → Emb → ℚ := fun _ _ => 9 / 10

/-- The relation between consecutive rounds of the mining trace asserted by
the spec: the earlier round accepted at least one clip, the next round's
threshold is the previous one plus the fixed increment capped at `1.0`, the
threshold never decreases, and it strictly increases while below the cap. -/
def thresholdStep (a b : ℚ × ℕ) : Prop :=
  0 < a.2 ∧ b.1 = min 1 (a.1 + CONFIDENCE_THRESHOLD_INCREMENT) ∧
    a.1 ≤ b.1 ∧ (a.1 < 1 → a.1 < b.1)

theorem mergeSources_some (w : Emb) (es : List Emb) :
    mergeSources (some w) es = some (es.foldl pairwiseMean w) := by
  cases es <;> simp [mergeSources, List.foldl]

theorem galleryFind_insertRow (name n : String) (e : Emb) :
    ∀ acc : List (String × Emb),
      galleryFind name (insertRow acc n e) =
        if n = name then
          (match galleryFind name acc with
           | some v => some (pairwiseMean v e)
           | none => some e)
        else galleryFind name acc := by
  intro acc
  induction acc with
  | nil =>
      by_cases h : n = name <;> simp [insertRow, galleryFind, h]
  | cons p rest ih =>
      obtain ⟨k, v⟩ := p
      by_cases hk : k = n
      · subst hk
        by_cases hn : k = name
        · subst hn
          simp [insertRow, galleryFind]
        · simp [insertRow, galleryFind, hn]
      · by_cases hn : k = name
        · subst hn
          have hne : n ≠ k := fun h => hk h.symm
          simp [insertRow, galleryFind, hk, hne]
        · simp [insertRow, galleryFind, hk, hn, ih]

theorem galleryFind_foldl (name : String) :
    ∀ (rows : List (String × Emb)) (acc : List (String × Emb)),
      galleryFind name (rows.foldl (fun a r => insertRow a r.1 r.2) acc) =
        mergeSources (galleryFind name acc)
          ((rows.filter (fun r => r.1 = name)).map Prod.snd) := by
  intro rows
  induction rows with
  | nil => intro acc; simp [mergeSources]
  | cons r rest ih =>
      intro acc
      obtain ⟨n, e⟩ := r
      by_cases hn : n = name
      · subst hn
        rw [List.foldl_cons, ih, galleryFind_insertRow, if_pos rfl]
        have hfil : (((n, e) :: rest).filter (fun r => r.1 = n)).map Prod.snd
            = e :: ((rest.filter (fun r => r.1 = n)).map Prod.snd) := by simp
        rw [hfil]
        cases hacc : galleryFind n acc with
        | none => rw [mergeSources_some]; rfl
        | some v => rw [mergeSources_some]; rfl
      · rw [List.foldl_cons, ih, galleryFind_insertRow, if_neg hn]
        have hfil : (((n, e) :: rest).filter (fun r => r.1 = name)).map Prod.snd
            = (rest.filter (fun r => r.1 = name)).map Prod.snd := by simp [hn]
        rw [hfil]

/-- Characterization of a loaded gallery: the effective embedding held for a
speaker is the left fold of pairwise averaging over that speaker's source
embeddings, in database row order. -/
theorem galleryFind_load (name : String) (rows : List (String × Emb)) :
    galleryFind name (load_embeddings_for_user rows) =
      mergeSources none ((rows.filter (fun r => r.1 = name)).map Prod.snd) := by
  simpa [load_embeddings_for_user, galleryFind] using
    galleryFind_foldl name rows []

theorem pairwiseMean_eq_vecMean (a b : Emb) :
    pairwiseMean a b = vecMean [a, b] := by
  simp only [vecMean, vecScale, List.foldl]
  induction a generalizing b with
  | nil => cases b <;> simp [pairwiseMean, vecAdd]
  | cons x xs ih =>
      cases b with
      | nil => simp [pairwiseMean, vecAdd]
      | cons y ys =>
          simp only [pairwiseMean, vecAdd, List.zipWith_cons_cons, List.map_cons,
            List.cons.injEq, List.length_singleton] at ih ⊢
          refine ⟨?_, ?_⟩
          · push_cast
            ring
          · simpa [pairwiseMean, vecAdd] using ih ys

theorem decideLoop_eq_find (score : Emb → Emb → ℚ) (live : Emb) (thr : ℚ) :
    ∀ (g : List (String × Emb)) (acc : ℚ),
      decideLoop score live thr g acc =
        match g.find? (fun p => decide (thr < score live p.2)) with
        | some p => (some p.1, true, score live p.2)
        | none => (none, false, g.foldl (fun m p => max m (score live p.2)) acc) := by
  intro g
  induction g with
  | nil => intro acc; simp [decideLoop]
  | cons p rest ih =>
      intro acc
      obtain ⟨n, e⟩ := p
      by_cases hs : thr < score live e
      · rw [List.find?_cons_of_pos _ (by simpa using hs)]
        simp [decideLoop, hs]
      · rw [List.find?_cons_of_neg _ (by simpa using hs)]
        rw [show decideLoop score live thr ((n, e) :: rest) acc =
              decideLoop score live thr rest (max acc (score live e)) from by
            simp [decideLoop, hs]]
        rw [ih]
        cases hfind : rest.find? (fun p => decide (thr < score live p.2)) with
        | some q => simp [hfind]
        | none => simp [hfind, List.foldl_cons]

theorem decideLoop_snd_nonneg (score : Emb → Emb → ℚ) (live : Emb) (thr : ℚ)
    (hthr : 0 ≤ thr) :
    ∀ (g : List (String × Emb)) (acc : ℚ), 0 ≤ acc →
      0 ≤ (decideLoop score live thr g acc).2.2 := by
  intro g
  induction g with
  | nil => intro acc h; simpa [decideLoop] using h
  | cons p rest ih =>
      intro acc h
      obtain ⟨n, e⟩ := p
      by_cases hs : thr < score live e
      · simp only [decideLoop, if_pos hs]
        exact le_of_lt (lt_of_le_of_lt hthr hs)
      · simp only [decideLoop, if_neg hs]
        exact ih _ (le_trans h (le_max_left _ _))

theorem is_target_speaker_fail (gallery : Option (List (String × Emb)))
    (modelLoaded : Bool) (score : Emb → Emb → ℚ) :
    is_target_speaker gallery modelLoaded score ChunkEval.fail = (false, 0) := by
  cases gallery with
  | none => rfl
  | some g =>
      by_cases hg : (g.isEmpty || !modelLoaded) = true <;>
        simp [is_target_speaker, hg]

theorem respond_false_zero : respond (false, 0) =
    { action := "UNMUTE", similarity := 0, isTargetSpeaker := false } := by
  simp [respond, round4]

theorem miningTrace_head_eq (score : Emb → Emb → ℚ) (corpus : List Emb)
    (n : ℕ) (master : Emb) (thr : ℚ) (p : ℚ × ℕ)
    (hp : (miningTrace score corpus n master thr).head? = some p) : p.1 = thr := by
  cases n with
  | zero => simp [miningTrace] at hp
  | succ m =>
      simp only [miningTrace, List.head?_cons, Option.some.injEq] at hp
      rw [← hp]

theorem miningTrace_le_one (score : Emb → Emb → ℚ) (corpus : List Emb) :
    ∀ (n : ℕ) (master : Emb) (thr : ℚ), thr ≤ 1 →
      ∀ p ∈ miningTrace score corpus n master thr, p.1 ≤ 1 := by
  intro n
  induction n with
  | zero => intro master thr h p hp; simp [miningTrace] at hp
  | succ m ih =>
      intro master thr h p hp
      simp only [miningTrace] at hp
      rcases List.mem_cons.mp hp with hp | hp
      · rw [hp]; exact h
      · by_cases hz : (roundAccepted score corpus master thr).length = 0
        · rw [if_pos hz] at hp; simp at hp
        · rw [if_neg hz] at hp
          exact ih _ _ (min_le_left _ _) p hp

theorem miningTrace_chain (score : Emb → Emb → ℚ) (corpus : List Emb) :
    ∀ (n : ℕ) (master : Emb) (thr : ℚ), thr ≤ 1 →
      List.Chain' thresholdStep (miningTrace score corpus n master thr) := by
  have hinc : (0 : ℚ) < CONFIDENCE_THRESHOLD_INCREMENT := by
    norm_num [CONFIDENCE_THRESHOLD_INCREMENT]
  intro n
  induction n with
  | zero => intro master thr h; simp [miningTrace]
  | succ m ih =>
      intro master thr h
      simp only [miningTrace]
      rw [List.chain'_cons']
      constructor
      · intro y hy
        by_cases hz : (roundAccepted score corpus master thr).length = 0
        · rw [if_pos hz] at hy; simp at hy
        · rw [if_neg hz] at hy
          rw [Option.mem_def] at hy
          have hy1 : y.1 = min 1 (thr + CONFIDENCE_THRESHOLD_INCREMENT) :=
            miningTrace_head_eq score corpus m _ _ y hy
          refine ⟨Nat.pos_of_ne_zero hz, hy1, ?_, ?_⟩
          · rw [hy1]
            exact le_min h (by linarith)
          · intro hlt
            rw [hy1]
            exact lt_min hlt (by linarith)
      · by_cases hz : (roundAccepted score corpus master thr).length = 0
        · rw [if_pos hz]; simp
        · rw [if_neg hz]
          exact ih _ _ (min_le_left _ _)

theorem miningTrace_zero_stops (score : Emb → Emb → ℚ) (corpus : List Emb) :
    ∀ (n : ℕ) (master : Emb) (thr : ℚ) (i : ℕ) (p : ℚ × ℕ),
      (miningTrace score corpus n master thr).get? i = some p → p.2 = 0 →
      (miningTrace score corpus n master thr).length = i + 1 := by
  intro n
  induction n with
  | zero => intro master thr i p hp; simp [miningTrace] at hp
  | succ m ih =>
      intro master thr i p hp hz
      by_cases h0 : (roundAccepted score corpus master thr).length = 0
      · cases i with
        | zero => simp [miningTrace, h0]
        | succ j =>
            exfalso
            simp [miningTrace, h0, List.get?_cons_succ] at hp
      · cases i with
        | zero =>
            exfalso
            have hp0 : (thr, (roundAccepted score corpus master thr).length) = p := by
              have h1 := hp
              simp only [miningTrace, if_neg h0, List.get?_cons_zero,
                Option.some.injEq] at h1
              exact h1
            rw [← hp0] at hz
            exact h0 hz
        | succ j =>
            have hp' : (miningTrace score corpus m
                (vecMean (roundAccepted score corpus master thr))
                (min 1 (thr + CONFIDENCE_THRESHOLD_INCREMENT))).get? j = some p := by
              have h1 := hp
              simp only [miningTrace, if_neg h0, List.get?_cons_succ] at h1
              exact h1
            have hlen := ih _ _ j p hp' hz
            simp only [miningTrace, if_neg h0, List.length_cons]
            omega

/-- C1 (counterexample): the claim says the effective gallery embedding of a
speaker with sources `e1..en` is the arithmetic mean `(e1+...+en)/n`.  For a
speaker with the three persisted source embeddings `[0]`, `[0]`, `[6]` the
loaded gallery holds `[3]` (the iterated pairwise average
`((0+0)/2 + 6)/2`), while the arithmetic mean of the full set is `[2]`. -/
theorem gallery_mean_counterexample :
    galleryFind "s"
        (load_embeddings_for_user [("s", [0]), ("s", [0]), ("s", [6])]) = some [3]
    ∧ vecMean [[0], [0], [6]] = [2]
    ∧ (([3] : Emb) ≠ [2]) := by
  refine ⟨?_, ?_, by decide⟩
  · norm_num [load_embeddings_for_user, insertRow, galleryFind, pairwiseMean,
      List.foldl]
  · norm_num [vecMean, vecScale, vecAdd, List.foldl]

/-- C1 (amended): on every gallery load, the effective embedding held for a
speaker whose persisted source embeddings are `e :: rest` (in database row
order) is the LEFT FOLD of pairwise averaging over them — not the arithmetic
mean of the full set.  For one source it is that source's embedding, and
enrolling a second source does change the effective embedding to the
arithmetic mean of both sources' embeddings (the fold and the full-set mean
agree for n ≤ 2). -/
theorem gallery_effective_embedding_fold (rows : List (String × Emb))
    (name : String) (e : Emb) (rest : List Emb)
    (h : (rows.filter (fun r => r.1 = name)).map Prod.snd = e :: rest) :
    galleryFind name (load_embeddings_for_user rows) =
      some (rest.foldl pairwiseMean e)
    ∧ (∀ e2, rest = [e2] →
        galleryFind name (load_embeddings_for_user rows) = some (vecMean [e, e2])) := by
  have hchar := galleryFind_load name rows
  rw [h] at hchar
  have hfold : galleryFind name (load_embeddings_for_user rows) =
      some (rest.foldl pairwiseMean e) := by
    rw [hchar]
    cases rest <;> rfl
  refine ⟨hfold, ?_⟩
  intro e2 he2
  rw [hfold, he2]
  simp [List.foldl, pairwiseMean_eq_vecMean]

/-- C1 (witness): a speaker with the two persisted sources `[0]` and `[2]`
gets the mean `[1]` of both as effective embedding. -/
theorem gallery_effective_embedding_fold_witness :
    galleryFind "s" (load_embeddings_for_user [("s", [0]), ("s", [2])]) =
      some (vecMean [[0], [2]]) :=
  (gallery_effective_embedding_fold [("s", [0]), ("s", [2])] "s" [0] [[2]]
    (by decide)).2 [2] rfl

/-- C2 (counterexample): the claim says loading the source rows in any order
yields the same effective embedding.  The two row lists below are
permutations of the same multiset of rows, yet one load yields effective
embedding `[3/2]` for speaker `s` and the other `[3]`. -/
theorem gallery_order_counterexample :
    ([("s", [6]), ("s", [0]), ("s", [0])] : List (String × Emb)).Perm
        [("s", [0]), ("s", [0]), ("s", [6])]
    ∧ load_embeddings_for_user [("s", [6]), ("s", [0]), ("s", [0])] ≠
        load_embeddings_for_user [("s", [0]), ("s", [0]), ("s", [6])] := by
  refine ⟨by decide, ?_⟩
  norm_num [load_embeddings_for_user, insertRow, pairwiseMean, List.foldl]

/-- C2 (amended): gallery loading is deterministic (the same persisted rows
always produce the same gallery), and the effective embedding of each
speaker depends only on that speaker's own subsequence of source rows in row
order — interleaving with other speakers' rows is irrelevant.  Full
order-independence of the row multiset fails (see the counterexample),
because the per-speaker combination is an order-sensitive fold. -/
theorem gallery_load_order_robust (rows1 rows2 : List (String × Emb))
    (h : ∀ name, rows1.filter (fun r => r.1 = name) =
        rows2.filter (fun r => r.1 = name)) :
    load_embeddings_for_user rows1 = load_embeddings_for_user rows1
    ∧ ∀ name, galleryFind name (load_embeddings_for_user rows1) =
        galleryFind name (load_embeddings_for_user rows2) := by
  refine ⟨rfl, ?_⟩
  intro name
  rw [galleryFind_load, galleryFind_load, h name]

/-- C2 (witness): two interleavings of the same per-speaker row sequences
give every speaker the same effective embedding. -/
theorem gallery_load_order_robust_witness :
    galleryFind "a"
        (load_embeddings_for_user [("a", [1]), ("b", [2]), ("a", [3])]) =
      galleryFind "a"
        (load_embeddings_for_user [("a", [1]), ("a", [3]), ("b", [2])]) :=
  (gallery_load_order_robust [("a", [1]), ("b", [2]), ("a", [3])]
    [("a", [1]), ("a", [3]), ("b", [2])]
    (by
      intro name
      by_cases ha : ("a" : String) = name
      · subst ha
        have hb : ¬ (("b" : String) = "a") := by decide
        simp [List.filter, hb]
      · by_cases hb : ("b" : String) = name
        · subst hb
          simp [List.filter, ha]
        · simp [List.filter, ha, hb])).2 "a"

/-- C3 (counterexample): the claim says that with no speaker above the
threshold the decision reports the observed maximum score.  With one
enrolled speaker whose cosine score is `-1/2` (below the `0.4` threshold),
the code reports similarity `0`, not the observed maximum `-1/2`, because
the running maximum starts at `0.0`. -/
theorem no_match_score_counterexample :
    is_target_speaker (some [("a", [1])]) true negHalfScore (ChunkEval.ok [1]) =
        (false, 0)
    ∧ negHalfScore [1] [1] = -(1 / 2)
    ∧ ((0 : ℚ) ≠ -(1 / 2)) := by
  refine ⟨?_, rfl, by norm_num⟩
  norm_num [is_target_speaker, decideLoop, negHalfScore, THRESHOLD, max_def]

/-- C3 (amended): the decision loop iterates speakers in gallery insertion
order and returns match, the FIRST speaker whose score strictly exceeds the
threshold, and that speaker's own score (not necessarily the best match);
if no speaker's score strictly exceeds the threshold it returns no-match
with the maximum of `0.0` and all per-speaker scores (the running maximum
starts at `0.0`, so it is not always the observed maximum score). -/
theorem decide_first_exceeds (score : Emb → Emb → ℚ) (live : Emb) (thr : ℚ)
    (g : List (String × Emb)) :
    decideLoop score live thr g 0 =
      match g.find? (fun p => decide (thr < score live p.2)) with
      | some p => (some p.1, true, score live p.2)
      | none => (none, false, g.foldl (fun m p => max m (score live p.2)) 0) :=
  decideLoop_eq_find score live thr g 0

/-- C7: a chunk whose decode or inference fails yields a no-match decision
(UNMUTE with similarity 0) and the session keeps going: the remaining chunks
are processed exactly as they would be on their own, one decision is emitted
per received chunk, and the decision for a chunk does not depend on earlier
(possibly corrupt) chunks; only the end of the incoming chunk sequence (the
channel closing) ends the session. -/
theorem session_survives_bad_chunk (gallery : Option (List (String × Emb)))
    (modelLoaded : Bool) (score : Emb → Emb → ℚ) :
    (∀ rest, sessionRun gallery modelLoaded score (ChunkEval.fail :: rest) =
        { action := "UNMUTE", similarity := 0, isTargetSpeaker := false } ::
          sessionRun gallery modelLoaded score rest)
    ∧ (∀ chunks, (sessionRun gallery modelLoaded score chunks).length = chunks.length)
    ∧ (∀ pre c, sessionRun gallery modelLoaded score (pre ++ [c]) =
        sessionRun gallery modelLoaded score pre ++
          [respond (is_target_speaker gallery modelLoaded score c)]) := by
  refine ⟨?_, ?_, ?_⟩
  · intro rest
    simp [sessionRun, is_target_speaker_fail, respond_false_zero]
  · intro chunks
    induction chunks with
    | nil => rfl
    | cons c rest ih => simp [sessionRun, ih]
  · intro pre c
    induction pre with
    | nil => rfl
    | cons d rest ih => simp [sessionRun, ih]

/-- C9: with no gallery loaded for the user, an empty gallery, or no loaded
model, every chunk gets the decision `(False, 0.0)` without the chunk's
content being consulted, so the session answers every chunk with UNMUTE,
similarity 0.0, isTargetSpeaker false. -/
theorem empty_gallery_always_unmute (gallery : Option (List (String × Emb)))
    (modelLoaded : Bool) (score : Emb → Emb → ℚ) (chunks : List ChunkEval)
    (h : gallery = none ∨ gallery = some [] ∨ modelLoaded = false) :
    sessionRun gallery modelLoaded score chunks =
      chunks.map (fun _ =>
        { action := "UNMUTE", similarity := 0, isTargetSpeaker := false }) := by
  have hdec : ∀ c, is_target_speaker gallery modelLoaded score c = (false, 0) := by
    intro c
    rcases h with h | h | h
    · subst h; rfl
    · subst h; simp [is_target_speaker]
    · subst h
      cases gallery with
      | none => rfl
      | some g => simp [is_target_speaker]
  induction chunks with
  | nil => rfl
  | cons c rest ih => simp [sessionRun, hdec, respond_false_zero, ih]

/-- C9 (witness): a session with no gallery entry for the user answers a
corrupt chunk and a valid chunk both with UNMUTE and similarity 0. -/
theorem empty_gallery_always_unmute_witness :
    sessionRun none true negHalfScore [ChunkEval.fail, ChunkEval.ok [1]] =
      [{ action := "UNMUTE", similarity := 0, isTargetSpeaker := false },
       { action := "UNMUTE", similarity := 0, isTargetSpeaker := false }] := by
  have h := empty_gallery_always_unmute none true negHalfScore
    [ChunkEval.fail, ChunkEval.ok [1]] (Or.inl rfl)
  simpa using h

/-- C10: the similarity reported for a chunk is always `≥ 0`; a failed chunk
reports exactly `(False, 0.0)` (indistinguishable from a genuine zero
score); and when no speaker exceeds the threshold the reported value is the
maximum of `0.0` and all per-speaker scores — so with all-negative cosine
scores the report is `0.0`, not the true maximum in `[-1, 1]`. -/
theorem similarity_nonneg_and_clamped (gallery : Option (List (String × Emb)))
    (modelLoaded : Bool) (score : Emb → Emb → ℚ) (chunk : ChunkEval)
    (g : List (String × Emb)) (live : Emb)
    (hno : ∀ p ∈ g, score live p.2 ≤ THRESHOLD) :
    0 ≤ (is_target_speaker gallery modelLoaded score chunk).2
    ∧ is_target_speaker gallery modelLoaded score ChunkEval.fail = (false, 0)
    ∧ is_target_speaker (some g) true score (ChunkEval.ok live) =
        (false, g.foldl (fun m p => max m (score live p.2)) 0) := by
  have hthr : (0 : ℚ) ≤ THRESHOLD := by norm_num [THRESHOLD]
  refine ⟨?_, is_target_speaker_fail _ _ _, ?_⟩
  · cases gallery with
    | none => simp [is_target_speaker]
    | some g' =>
        by_cases hg : (g'.isEmpty || !modelLoaded) = true
        · simp [is_target_speaker, hg]
        · cases chunk with
          | fail => simp [is_target_speaker, hg]
          | ok live' =>
              have hnn := decideLoop_snd_nonneg score live' THRESHOLD hthr g' 0 le_rfl
              simpa [is_target_speaker, hg] using hnn
  · cases g with
    | nil => simp [is_target_speaker, List.foldl]
    | cons p rest =>
        have hfind : ((p :: rest).find?
            (fun q => decide (THRESHOLD < score live q.2))) = none := by
          rw [List.find?_eq_none]
          intro x hx
          simpa using not_lt.mpr (hno x hx)
        have hchar := decideLoop_eq_find score live THRESHOLD (p :: rest) 0
        rw [hfind] at hchar
        simp [is_target_speaker, hchar]

/-- C10 (witness): with a single enrolled speaker scoring `-1/2`, the
reported similarity is the clamped value `0`. -/
theorem similarity_nonneg_and_clamped_witness :
    0 ≤ (is_target_speaker (some [("a", [1])]) true negHalfScore
        (ChunkEval.ok [1])).2
    ∧ is_target_speaker (some [("a", [1])]) true negHalfScore ChunkEval.fail =
        (false, 0)
    ∧ is_target_speaker (some [("a", ([1] : Emb))]) true negHalfScore
        (ChunkEval.ok [1]) =
        (false, ([("a", ([1] : Emb))]).foldl
          (fun m p => max m (negHalfScore [1] p.2)) 0) :=
  similarity_nonneg_and_clamped (some [("a", [1])]) true negHalfScore
    (ChunkEval.ok [1]) [("a", [1])] [1]
    (by intro p hp; norm_num [negHalfScore, THRESHOLD])

/-- C4 (counterexample): the claim says an input shorter than the provider's
minimum is extended by repeating and truncating to exactly the minimum
length before embedding.  For a 1-sample input and minimum length 3, the
code hands the model the unchanged 1-sample signal, not the 3-sample
repeat-truncate extension. -/
theorem short_input_counterexample :
    preparedSignal [1] = [1]
    ∧ repeatTruncate 3 [1] = [1, 1, 1]
    ∧ preparedSignal [(1 : ℚ)] ≠ repeatTruncate 3 [1] := by
  refine ⟨rfl, by decide, by decide⟩

/-- C4 (amended): the repository performs NO minimum-duration extension:
an audio input shorter than any assumed provider minimum is passed to the
embedding provider unchanged, and in particular it never equals the
spec-mandated repeat-and-truncate extension (their lengths differ). -/
theorem short_input_passed_unchanged (minLen : ℕ) (s : List ℚ)
    (h : s.length < minLen) :
    preparedSignal s = s
    ∧ (preparedSignal s).length < minLen
    ∧ (repeatTruncate minLen s).length = minLen
    ∧ preparedSignal s ≠ repeatTruncate minLen s := by
  refine ⟨rfl, h, by simp [repeatTruncate], ?_⟩
  intro heq
  have hlen := congrArg List.length heq
  simp [preparedSignal, repeatTruncate] at hlen
  omega

/-- C4 (witness): concrete instance of the previous theorem at a 1-sample
input and minimum length 3. -/
theorem short_input_passed_unchanged_witness :
    preparedSignal [(1 : ℚ)] = [1]
    ∧ (preparedSignal [(1 : ℚ)]).length < 3
    ∧ (repeatTruncate 3 [(1 : ℚ)]).length = 3
    ∧ preparedSignal [(1 : ℚ)] ≠ repeatTruncate 3 [1] :=
  short_input_passed_unchanged 3 [1] (by decide)

/-- C5: along the rounds actually executed by the mining pipeline, every
round before a successor accepted at least one clip, the successor's
threshold is `min 1 (previous + CONFIDENCE_THRESHOLD_INCREMENT)`, the
threshold never decreases (strictly increases while below the `1.0` cap),
and no round's threshold ever exceeds `1.0`. -/
theorem mining_threshold_monotone (score : Emb → Emb → ℚ) (corpus : List Emb)
    (seedEmb : Emb) (numRounds : ℕ) :
    List.Chain' thresholdStep (extract_samples score corpus seedEmb numRounds)
    ∧ ∀ p ∈ extract_samples score corpus seedEmb numRounds, p.1 ≤ 1 :=
  ⟨miningTrace_chain score corpus numRounds seedEmb INITIAL_CONFIDENCE_THRESHOLD
      (by norm_num [INITIAL_CONFIDENCE_THRESHOLD]),
   miningTrace_le_one score corpus numRounds seedEmb INITIAL_CONFIDENCE_THRESHOLD
      (by norm_num [INITIAL_CONFIDENCE_THRESHOLD])⟩

/-- C5 (witness): in a two-round run whose rounds both accept one clip, the
second round's threshold `1/2 = min 1 (3/10 + 1/5)` is `≤ 1`. -/
theorem mining_threshold_monotone_witness :
    ((1 : ℚ) / 2, (1 : ℕ)).1 ≤ 1 :=
  (mining_threshold_monotone highScore [[1]] [1] 2).2 ((1 : ℚ) / 2, (1 : ℕ))
    (by
      have htrace : extract_samples highScore [[1]] [1] 2 =
          [(3 / 10, 1), (1 / 2, 1)] := by
        norm_num [extract_samples, miningTrace, roundAccepted, List.filter_cons,
          highScore, INITIAL_CONFIDENCE_THRESHOLD, CONFIDENCE_THRESHOLD_INCREMENT,
          min_def, vecMean, vecScale, vecAdd, List.foldl]
      rw [htrace]
      norm_num)

/-- C6: if a round of the mining pipeline accepts zero clips, that round is
the last entry of the run's trace — no further round is attempted (hence no
new master embedding or threshold is computed after it); in particular, on a
corpus with no segment scoring above `INITIAL_CONFIDENCE_THRESHOLD` against
the seed, any run of at least one round ends after round 1 with the single
trace entry `(INITIAL_CONFIDENCE_THRESHOLD, 0)`. -/
theorem mining_stops_on_empty_round (score : Emb → Emb → ℚ) (corpus : List Emb)
    (seedEmb : Emb) (numRounds : ℕ) :
    (∀ i p, (extract_samples score corpus seedEmb numRounds).get? i = some p →
        p.2 = 0 → (extract_samples score corpus seedEmb numRounds).length = i + 1)
    ∧ (1 ≤ numRounds →
        (∀ seg ∈ corpus, score seedEmb seg ≤ INITIAL_CONFIDENCE_THRESHOLD) →
        extract_samples score corpus seedEmb numRounds =
          [(INITIAL_CONFIDENCE_THRESHOLD, 0)]) := by
  constructor
  · intro i p hp hz
    exact miningTrace_zero_stops score corpus numRounds seedEmb _ i p hp hz
  · intro hn hall
    obtain ⟨m, rfl⟩ : ∃ m, numRounds = m + 1 := ⟨numRounds - 1, by omega⟩
    have hacc : roundAccepted score corpus seedEmb INITIAL_CONFIDENCE_THRESHOLD
        = [] := by
      simp only [roundAccepted, List.filter_eq_nil_iff]
      intro a ha
      simpa using not_lt.mpr (hall a ha)
    simp [extract_samples, miningTrace, hacc]

/-- C6 (witness): a corpus whose only segment scores `-1/2` against the seed
(below `3/10`) ends a two-round run after round 1 with zero clips. -/
theorem mining_stops_on_empty_round_witness :
    extract_samples negHalfScore [[1]] [1] 2 = [(INITIAL_CONFIDENCE_THRESHOLD, 0)]
    ∧ (extract_samples negHalfScore [[1]] [1] 2).length = 0 + 1 := by
  have h := mining_stops_on_empty_round negHalfScore [[1]] [1] 2
  have h2 := h.2 (by norm_num)
    (by intro seg hseg; norm_num [negHalfScore, INITIAL_CONFIDENCE_THRESHOLD])
  refine ⟨h2, ?_⟩
  exact h.1 0 (INITIAL_CONFIDENCE_THRESHOLD, 0) (by rw [h2]; rfl) rfl

/-- C8 (counterexample): the claim says every administrative call returns a
structured status payload and that a malformed user identifier is rejected
with a clear client-facing message.  For the malformed identifier `"../x"`,
`/wipe-db` instead lets `get_db_path`'s `ValueError` escape (it is called
outside the endpoint's try-block), an unhandled failure rather than a
structured payload. -/
theorem malformed_user_raises :
    wipe_db (some "../x") = Except.error "Invalid userId format."
    ∧ (wipe_db (some "../x")).isOk = false := by
  constructor <;> rfl

/-- C8 (amended): a missing or empty user identifier yields the structured
`Missing userId.` payload; a well-formed identifier yields the structured
success payload; but a nonempty MALFORMED identifier makes `get_db_path`
raise `ValueError("Invalid userId format.")` before any store access, and
the exception propagates out of the endpoint unhandled instead of being
returned as a structured payload. -/
theorem admin_ops_validation (userId : Option String) :
    (userId = none → wipe_db userId = Except.ok ⟨"error", "Missing userId."⟩)
    ∧ (∀ uid, userId = some uid → uid.data.isEmpty = true →
        wipe_db userId = Except.ok ⟨"error", "Missing userId."⟩)
    ∧ (∀ uid, userId = some uid → uid.data.isEmpty = false → validUserId uid = false →
        wipe_db userId = Except.error "Invalid userId format.")
    ∧ (∀ uid, userId = some uid → validUserId uid = true →
        wipe_db userId = Except.ok ⟨"success",
          "Database for user " ++ uid ++ " wiped and reinitialized."⟩) := by
  refine ⟨?_, ?_, ?_, ?_⟩
  · rintro rfl; rfl
  · rintro uid rfl hempty
    simp [wipe_db, hempty]
  · rintro uid rfl hempty hvalid
    simp [wipe_db, hempty, get_db_path, hvalid]
  · rintro uid rfl hvalid
    have hempty : uid.data.isEmpty = false := by
      cases h : uid.data.isEmpty with
      | false => rfl
      | true =>
          exfalso
          have hf : validUserId uid = false := by simp [validUserId, h]
          rw [hf] at hvalid
          exact Bool.false_ne_true hvalid
    simp [wipe_db, hempty, get_db_path, hvalid]

/-- C8 (witness): a well-formed identifier gets the structured success
payload, while a malformed one makes the endpoint raise. -/
theorem admin_ops_validation_witness :
    wipe_db (some "user-1") = Except.ok ⟨"success",
        "Database for user " ++ "user-1" ++ " wiped and reinitialized."⟩
    ∧ wipe_db (some "a b") = Except.error "Invalid userId format." :=
  ⟨(admin_ops_validation (some "user-1")).2.2.2 "user-1" rfl (by decide),
   (admin_ops_validation (some "a b")).2.2.1 "a b" rfl (by decide) (by decide)⟩

end AutoMuter
